import Mathlib

/-!
Shallow embedding of the merger-tree indexing and traversal engine of the
`eagle_database` package (files `helper_functions.py`, `database.py`,
`subgroup.py`), together with proofs checking the natural-language
specification against it.

Modelling conventions:
* numpy arrays of integers become `List Int`; machine integers are `Int`
  (the catalogue identifiers fit comfortably in 64-bit, no overflow occurs
  in any modelled operation, and Python integers are unbounded anyway).
* Fallible operations (numpy `IndexError`, `KeyError` on a missing HDF5
  group, `ValueError` on ambiguous array truth values or shape mismatch)
  return `Except Err`.
* `numpy.searchsorted` on a sorted view is modelled extensionally: the
  left (right) insertion point of `v` is the number of elements `< v`
  (`≤ v`).  This is numpy's documented behaviour for sorted input, which
  is the precondition `quick_search` documents for its haystack.
* Indexing an array by `None` (the fall-through return of `quick_search`
  when nothing matched) is numpy's newaxis: it yields the whole array with
  a prepended axis, modelled by the `NpVal.mat` constructor.
* Floating point enters the source only through the scale-factor, redshift
  and age-of-universe arrays (opaque per-snapshot data supplied by external
  collaborators, out of scope per the spec) and through `nodeIndex // 1e12`.
  The time arrays are modelled as opaque `List Int` columns; the float
  floor-division is modelled as integer floor division `Int.fdiv`, with
  which it agrees exactly for the catalogue's nodeIndex range
  (below 2^53, where float64 represents every integer exactly and
  `n / 1e12` cannot round across an integer boundary).
-/

namespace Eagle

/-- Error kinds of the Python code paths: `KeyError` (missing HDF5 group),
`IndexError` (out-of-range array index), `ValueError` (ambiguous truth value
of a multi-element array, shape mismatch, concatenating `None`), plus a
marker `nonTermination` for the descendant `while` loop spinning forever
(the loop has no bound in the source; the model runs it on fuel that is
provably sufficient for every terminating run). -/
inductive Err where
  | keyError
  | indexError
  | valueError
  | nonTermination
  deriving DecidableEq, Repr

/-- Equality of `Except` results is decidable (needed so that concrete
runs of the embedded code can be checked by `decide`). -/
instance {e a : Type} [DecidableEq e] [DecidableEq a] : DecidableEq (Except e a)
  | .ok x, .ok y =>
    if h : x = y then .isTrue (by rw [h])
    else .isFalse (by intro hc; injection hc; contradiction)
  | .ok _, .error _ => .isFalse (by intro hc; exact Except.noConfusion hc)
  | .error _, .ok _ => .isFalse (by intro hc; exact Except.noConfusion hc)
  | .error x, .error y =>
    if h : x = y then .isTrue (by rw [h])
    else .isFalse (by intro hc; injection hc; contradiction)

/-- numpy integer indexing of a 1-d array: a (possibly negative) index `i`
is valid iff `-len ≤ i < len`; negative indices wrap around.  Out of range
raises `IndexError`. -/
def npGetI (l : List Int) (i : Int) : Except Err Int :=
  if h : 0 ≤ i ∧ i < l.length then
    .ok (l.get ⟨i.toNat, by omega⟩)
  else if h2 : -(l.length : Int) ≤ i ∧ i < 0 then
    .ok (l.get ⟨(i + l.length).toNat, by omega⟩)
  else
    .error .indexError

/-- numpy fancy indexing by an array of non-negative positions (the positions
produced by `quick_search` are insertion points, hence non-negative). -/
def npGets (l : List Int) : List Nat → Except Err (List Int)
  | [] => .ok []
  | p :: ps =>
    if h : p < l.length then
      match npGets l ps with
      | .ok vs => .ok (l.get ⟨p, h⟩ :: vs)
      | .error e => .error e
    else .error Err.indexError

/-- Left insertion point of `v` into the sorted view `l`
(`numpy.searchsorted(l, v, side='left')` for sorted `l`): the number of
elements strictly below `v`. -/
def countLt (l : List Int) (v : Int) : Nat :=
  l.countP (fun x => decide (x < v))

/-- Right insertion point of `v` into the sorted view `l`
(`numpy.searchsorted(l, v, side='right')` for sorted `l`): the number of
elements `≤ v`. -/
def countLe (l : List Int) (v : Int) : Nat :=
  l.countP (fun x => decide (x ≤ v))

/-- The sorted view searched by `numpy.searchsorted(input, ·, sorter=s)`:
`input[s]` when a sorter is given, `input` itself otherwise. -/
def searchView (input : List Int) : Option (List Nat) → List Int
  | none => input
  | some s => s.map (fun i => input.getD i 0)

/-- `helper_functions.quick_search(input_array, search_values, sorter_array)`.
For each needle the left and right insertion points into the (conceptually
sorted) haystack are compared; the needle matches iff they differ, in which
case its left insertion point is kept (`left[left != right]`).  Matched
insertion points are mapped back through the sorter when one was given.
If nothing matched the function falls off its final `if` and returns `None`,
modelled as `none`.  Needles are passed as a list; the scalar call sites of
the source correspond to singleton lists (numpy scalars delegate the
boolean indexing to the equivalent 0-d array).  `qsHits` is the
intermediate `left[left != right]` array of matched left insertion points,
split out of `quick_search` for the proofs. -/
def qsHits (input_array : List Int) (search_values : List Int)
    (sorter_array : Option (List Nat)) : List Nat :=
  search_values.filterMap fun v =>
    if countLt (searchView input_array sorter_array) v ≠
        countLe (searchView input_array sorter_array) v
    then some (countLt (searchView input_array sorter_array) v) else none

def quick_search (input_array : List Int) (search_values : List Int)
    (sorter_array : Option (List Nat)) : Option (List Nat) :=
  if qsHits input_array search_values sorter_array = [] then none
  else some (match sorter_array with
    | none => qsHits input_array search_values sorter_array
    | some s => (qsHits input_array search_values sorter_array).map
        (fun i => s.getD i 0))

/-- `numpy.argsort` on an integer column: a permutation of `range n` that
sorts the column ascending (the source computes it once per database in
`Database.get_galaxyID_sorter`).  Modelled with insertion sort; `argsort`'s
exact tie-breaking is irrelevant because GalaxyID values are unique, and
every theorem uses only that the result is a sorting permutation. -/
def argsortInt (l : List Int) : List Nat :=
  List.insertionSort (fun i j => l.getD i 0 ≤ l.getD j 0) (List.range l.length)

/-- The `Database` object after `__init__`: the loaded `MergerTree/*` columns,
the open-ended family of `Subhalo/<name>` columns (which includes
`SnapNum`), and the three per-snapshot time arrays.  `redshifts` and
`tUniverse` are float arrays derived via the external cosmology calculator;
they are opaque to every claim and modelled as independent integer columns.
-/
structure Database where
  galaxyID     : List Int            -- MergerTree/GalaxyID
  topLeafID    : List Int            -- MergerTree/TopLeafID
  lastProgID   : List Int            -- MergerTree/LastProgID
  descendantID : List Int            -- MergerTree/DescendantID
  nodeIndexCol : List Int            -- MergerTree/nodeIndex
  subhalo      : List (String × List Int)  -- Subhalo/<name> columns
  aExp         : List Int            -- FileInfo/ExpansionFactorAtSnap
  redshifts    : List Int            -- 1/aExp - 1 (opaque)
  tUniverse    : List Int            -- cosmology.age(redshifts) (opaque)
  deriving DecidableEq, Repr

/-- `Database.number_snapshots = len(self.aExp)`. -/
def Database.number_snapshots (db : Database) : Nat :=
  db.aExp.length

/-- `Database._galaxyID_sorter`, computed once by `get_galaxyID_sorter` as
`argsort(self['MergerTree/GalaxyID'])`. -/
def Database.galaxyID_sorter (db : Database) : List Nat :=
  argsortInt db.galaxyID

/-- `self._database['Subhalo/<name>']`: looks the named column up in the
file, raising `KeyError` when the group is absent. -/
def Database.getSubhalo (db : Database) (name : String) : Except Err (List Int) :=
  match db.subhalo.lookup name with
  | some col => .ok col
  | none => .error .keyError

/-- `Database.get_all_nodeIndex`: for each snapshot number the sub-array of
the nodeIndex column whose entries satisfy `nodeIndex // 1e12 == snap`
(filtering preserves the stored order). -/
def Database.all_nodeIndex (db : Database) : List (List Int) :=
  (List.range db.number_snapshots).map fun snap =>
    db.nodeIndexCol.filter (fun ni => Int.fdiv ni (10 ^ 12) = Int.ofNat snap)

/-- Result of a numpy expression that is either a 1-d integer array or (after
indexing an array with `None`, numpy's newaxis) a 2-d array.  `mat rows`
holds the rows of the 2-d result; `arr[None]` is `mat [arr]`. -/
inductive NpVal where
  | vec (l : List Int)
  | mat (rows : List (List Int))
  deriving DecidableEq, Repr

/-- `Database.galaxyID_to_nodeIndex(galaxyID)`:
`self['MergerTree/nodeIndex'][quick_search(self['MergerTree/GalaxyID'],
galaxyID, self._galaxyID_sorter)]`.  When the search misses it returns
`None`, and `array[None]` is numpy newaxis — the whole nodeIndex column with
a prepended axis, not an exception.  A hit gathers the column at the found
positions (fancy indexing, `IndexError` when a position is out of range for
the column). -/
def Database.galaxyID_to_nodeIndex (db : Database) (galaxyID : Int) :
    Except Err NpVal :=
  match quick_search db.galaxyID [galaxyID] (some db.galaxyID_sorter) with
  | none => .ok (.mat [db.nodeIndexCol])
  | some ps => (npGets db.nodeIndexCol ps).map .vec

/-- `Database.nodeIndex_to_galaxyID(nodeIndex)`:
`self['MergerTree/GalaxyID'][quick_search(self['MergerTree/nodeIndex'],
nodeIndex)]` — same structure as `galaxyID_to_nodeIndex` but searching the
nodeIndex column without a sorter. -/
def Database.nodeIndex_to_galaxyID (db : Database) (nodeIndex : Int) :
    Except Err NpVal :=
  match quick_search db.nodeIndexCol [nodeIndex] none with
  | none => .ok (.mat [db.galaxyID])
  | some ps => (npGets db.galaxyID ps).map .vec

/-- Python list indexing (`self._all_nodeIndex[snapshot_number]`): negative
indices wrap, out of range raises `IndexError`. -/
def pyListGet (l : List (List Int)) (i : Int) : Except Err (List Int) :=
  if h : 0 ≤ i ∧ i < l.length then
    .ok (l.get ⟨i.toNat, by omega⟩)
  else if h2 : -(l.length : Int) ≤ i ∧ i < 0 then
    .ok (l.get ⟨(i + l.length).toNat, by omega⟩)
  else
    .error .indexError

/-- `Database.nodeIndex_to_subgroup(nodeIndex)` for a scalar argument:
decodes the snapshot as `int(nodeIndex // 1e12)`, then locates the
nodeIndex inside that snapshot's grouping with `quick_search` (no sorter)
and takes element `[0]` of the result (`TypeError`-like failure — modelled
as `valueError` — when the search returned `None`). -/
def Database.nodeIndex_to_subgroup (db : Database) (nodeIndex : Int) :
    Except Err (Int × Int) :=
  match pyListGet db.all_nodeIndex (Int.fdiv nodeIndex (10 ^ 12)) with
  | .error e => .error e
  | .ok grouping =>
    match quick_search grouping [nodeIndex] none with
    | some (subgroup_number :: _) =>
      .ok ((subgroup_number : Int), Int.fdiv nodeIndex (10 ^ 12))
    | some [] => .error .valueError   -- unreachable: `some` is never empty
    | none => .error .valueError      -- `None[0]` raises in Python

/-- `Database.subgroup_to_nodeIndex(subgroup_number, snapshot_number)`:
`self._all_nodeIndex[snapshot_number][subgroup_number]` (Python list index,
then numpy array index). -/
def Database.subgroup_to_nodeIndex (db : Database) (subgroup_number : Int)
    (snapshot_number : Int) : Except Err Int :=
  match pyListGet db.all_nodeIndex snapshot_number with
  | .error e => .error e
  | .ok grouping => npGetI grouping subgroup_number

/-- The dictionary built by `Subgroup.get_galaxyID_info`: the queried
GalaxyID array, the positions found by `quick_search` (stored even when the
search returned `None`), and the nodeIndex column gathered at those
positions (`column[None]`, numpy newaxis, in the `None` case). -/
structure GalaxyInfo where
  galaxyID         : List Int
  positional_index : Option (List Nat)
  nodeIndex        : NpVal
  deriving DecidableEq, Repr

/-- `Subgroup.get_galaxyID_info(galaxyID_array)`: one batched `quick_search`
over the GalaxyID column with the database's sorter, then a gather of the
nodeIndex column at the found positions.  Misses are dropped silently by
`quick_search`, so `positional_index` can be shorter than `galaxyID`; a
total miss stores `None` and the newaxis gather. -/
def getGalaxyIDInfo (db : Database) (galaxyID_array : List Int) :
    Except Err GalaxyInfo :=
  match quick_search db.galaxyID galaxyID_array (some db.galaxyID_sorter) with
  | none => .ok ⟨galaxyID_array, none, .mat [db.nodeIndexCol]⟩
  | some ps => (npGets db.nodeIndexCol ps).map fun nis =>
      ⟨galaxyID_array, some ps, .vec nis⟩

/-- `Subgroup.get_next_descendant(galaxyID)`: look the current identifier up
in the GalaxyID column (scalar `quick_search` with the sorter) and read the
DescendantID column at the found position.  `none` covers the two paths on
which the surrounding `while` loop cannot continue: the search missed (the
returned newaxis array makes `next_galaxyID != -1` raise `ValueError`), or
the DescendantID gather is out of range (`IndexError`). -/
def getNextDescendant (db : Database) (galaxyID : Int) : Option Int :=
  match quick_search db.galaxyID [galaxyID] (some db.galaxyID_sorter) with
  | none => none
  | some [] => none            -- unreachable: `some` is always non-empty
  | some (p :: _) => db.descendantID.get? p

/-- Outcome of the descendant `while` loop of `Subgroup.get_descendants`:
the collected nearest-first identifier list, a crash of one of the lookups,
or fuel exhaustion (the source loop has no bound and would spin forever). -/
inductive WalkResult where
  | ok (ids : List Int)
  | lookupCrash
  | fuelOut
  deriving DecidableEq, Repr

/-- One spin of `while next_galaxyID != -1`: fetch the descendant of `cur`;
stop with the collected list when it is the sentinel `-1`, otherwise append
it and continue.  `fuel` counts the remaining permitted iterations. -/
def walkAux (db : Database) : Nat → Int → List Int → WalkResult
  | fuel, cur, acc =>
    match getNextDescendant db cur with
    | none => .lookupCrash
    | some d =>
      if d = -1 then .ok acc.reverse
      else match fuel with
        | 0 => .fuelOut
        | fuel + 1 => walkAux db fuel d (d :: acc)

/-- The iterative descendant collection of `Subgroup.get_descendants`,
started at the subgroup's own GalaxyID; returns the appended identifiers in
nearest-first order (the order of the Python list
`all_descendant_galaxyIDs`).  `fuel` bounds the number of loop iterations;
the source has no such bound. -/
def walkDescendants (db : Database) (fuel : Nat) (galaxyID : Int) : WalkResult :=
  walkAux db fuel galaxyID []

/-- `np.hstack` over the two `positional_index` entries: concatenation when
both are arrays; if either is `None` (a chain whose `quick_search` missed
everything), `np.concatenate` rejects the zero-dimensional `asarray(None)`
with `ValueError`. -/
def hstackPos : Option (List Nat) → Option (List Nat) →
    Except Err (Option (List Nat))
  | some a, some b => .ok (some (a ++ b))
  | _, _ => .error .valueError

/-- `np.hstack` over the two `nodeIndex` entries: 1-d arrays concatenate;
two single-row 2-d arrays concatenate along the second axis; mixing a 1-d
with a 2-d array raises `ValueError` (dimension mismatch). -/
def hstackNp : NpVal → NpVal → Except Err NpVal
  | .vec a, .vec b => .ok (.vec (a ++ b))
  | .mat [a], .mat [b] => .ok (.mat [a ++ b])
  | _, _ => .error .valueError

/-- `Subgroup.build_main_merger_tree`: the descendant dictionary (already
reversed to farthest-first by `get_descendants`) is `hstack`-ed in front of
the main-progenitor dictionary, key by key; when `get_descendants` returned
`None` the main-progenitor dictionary alone is the tree.  (The symmetric
`main_progenitors is None` branch of the source is dead code:
`get_main_progenitors` always returns a dictionary.) -/
def buildMainMergerTree (main_progenitors : GalaxyInfo)
    (descendants : Option GalaxyInfo) : Except Err GalaxyInfo :=
  match descendants with
  | none => .ok main_progenitors
  | some d => do
      let pos ← hstackPos d.positional_index main_progenitors.positional_index
      let ni ← hstackNp d.nodeIndex main_progenitors.nodeIndex
      .ok ⟨d.galaxyID ++ main_progenitors.galaxyID, pos, ni⟩

/-- `numpy.arange(a, b)` for integers: `a, a+1, ..., b-1` (empty when
`b ≤ a`).  `get_main_progenitors` calls it as `arange(galaxyID,
topLeafID+1)`. -/
def intArange (a b : Int) : List Int :=
  (List.range (b - a).toNat).map (fun i => a + Int.ofNat i)

/-- A value cached in `Subgroup.evolution`: a 1-d gather along the track, a
2-d array (the newaxis flow), or an `(N,3)` array stored column-wise (the
reserved vector-valued properties). -/
inductive PropVal where
  | s (l : List Int)
  | m (rows : List (List Int))
  | v3 (x y z : List Int)
  deriving DecidableEq, Repr

/-- Python `len` of a cached array: the first-axis extent. -/
def PropVal.pyLen : PropVal → Nat
  | .s l => l.length
  | .m rows => rows.length
  | .v3 x _ _ => x.length

/-- Gather a `Subhalo` column along the merger tree
(`column[()][self._main_merger_tree['positional_index']]`): fancy indexing
at the track positions, or the newaxis 2-d result when the stored
`positional_index` is `None`. -/
def gatherTrack (col : List Int) (tree : GalaxyInfo) : Except Err PropVal :=
  match tree.positional_index with
  | some ps => (npGets col ps).map .s
  | none => .ok (.m [col])

/-- Fancy-index a per-snapshot time array (`aExp`, `redshifts`, `tUniverse`)
by the cached `SnapNum` values (`self._database.aExp[self['SnapNum']]`):
1-d index arrays give 1-d results, 2-d give 2-d; the value cached under
`SnapNum` is never an `(N,3)` store, that shape is modelled as unreachable
(`valueError`). -/
def indexTimeArray (arr : List Int) : PropVal → Except Err PropVal
  | .s l => (l.mapM (npGetI arr)).map .s
  | .m rows => (rows.mapM (fun r => List.mapM (npGetI arr) r)).map .m
  | .v3 _ _ _ => .error .valueError

/-- `numpy.diff` of a 1-d integer array: `a[i+1] - a[i]`. -/
def npDiff (l : List Int) : List Int :=
  List.zipWith (fun b a => b - a) l.tail l

/-- `Subgroup.identify_last_resolved_snapshot`, computed from the merged
track and the `SnapNum` array cached along it: the first position of
`diff(galaxyID) != 1` — `where(...)[0]` is empty when there is no break, in
which case the sentinel `-1` is returned — and otherwise the cached
`SnapNum` at the following track position.  (When the cached `SnapNum` is
the newaxis 2-d array its first axis has extent 1, so the index `k+1 ≥ 1`
raises `IndexError`.) -/
def identifyLastResolved (tree : GalaxyInfo) (snapTrack : PropVal) :
    Except Err Int :=
  match (npDiff tree.galaxyID).findIdx? (fun d => d ≠ 1) with
  | none => .ok (-1)
  | some k =>
    match snapTrack with
    | .s l => match l.get? (k + 1) with
      | some v => .ok v
      | none => .error .indexError
    | _ => .error .indexError

/-- The `Subgroup` object after a successful `__init__`: the resolution
results, the two chains, the merged track, the eagerly-populated
`evolution` cache (which after construction holds `SnapNum`, `aExp`,
`Redshift` and `tUniverse`, in that insertion order), the branch length and
the last resolved snapshot. -/
structure Subgroup where
  subgroup_number  : Int
  snap_number      : Int
  positional_index : Nat
  nodeIndex        : Int
  galaxyID         : Int
  topLeafID        : Int
  lastProgenitorID : Int
  main_progenitors : GalaxyInfo
  descendants      : Option GalaxyInfo
  main_merger_tree : GalaxyInfo
  evolution        : List (String × PropVal)
  main_progenitor_branch_length : Nat
  last_resolved_snapshot : Int
  deriving DecidableEq, Repr

/-- `Subgroup.get_positional_index`:
`where(SnapNum == snap_number)[0][subgroup_number]` — the
`subgroup_number`-th index (numpy integer indexing, so negative values wrap
and anything outside `[-count, count)` raises `IndexError`) among the row
indices whose `SnapNum` equals the requested snapshot. -/
def getPositionalIndex (snapCol : List Int) (snap_number : Int)
    (subgroup_number : Int) : Except Err Nat :=
  let hits := (List.range snapCol.length).filter
    (fun i => snapCol.getD i 0 = snap_number)
  if h : 0 ≤ subgroup_number ∧ subgroup_number < hits.length then
    .ok (hits.get ⟨subgroup_number.toNat, by omega⟩)
  else if h2 : -(hits.length : Int) ≤ subgroup_number ∧ subgroup_number < 0 then
    .ok (hits.get ⟨(subgroup_number + hits.length).toNat, by omega⟩)
  else
    .error .indexError

/-- `Subgroup.get_descendants`: run the `while` loop from the subgroup's own
GalaxyID with fuel `len(GalaxyID column)` — sufficient for every run the
Python loop completes, because a completed walk never revisits an
identifier and every visited identifier lies in the column — then return
`None` for the empty collection, and otherwise the `get_galaxyID_info`
dictionary of the reversed (farthest-first) identifier list. -/
def getDescendants (db : Database) (galaxyID : Int) :
    Except Err (Option GalaxyInfo) :=
  match walkDescendants db db.galaxyID.length galaxyID with
  | .ok [] => .ok none
  | .ok ids => (getGalaxyIDInfo db ids.reverse).map some
  | .lookupCrash => .error .valueError
  | .fuelOut => .error .nonTermination

/-- `Subgroup.__init__(database, subgroup_number, snap_number)`, all-or-
nothing: resolve the catalogue row, read its identifiers, build the
main-progenitor branch (`arange(galaxyID, topLeafID+1)` resolved in one
batch), walk and reverse the descendant chain, merge the two chains,
populate the `evolution` cache with `SnapNum` (gathered on first use by
`self['SnapNum']`) and the three time arrays indexed by it, and detect the
last resolved snapshot.  Any failure on the way aborts construction. -/
def mkSubgroup (db : Database) (subgroup_number : Int) (snap_number : Int) :
    Except Err Subgroup := do
  let snapCol ← db.getSubhalo "SnapNum"
  let positional_index ← getPositionalIndex snapCol snap_number subgroup_number
  let nodeIndex ← npGetI db.nodeIndexCol (positional_index : Int)
  let galaxyID ← npGetI db.galaxyID (positional_index : Int)
  let topLeafID ← npGetI db.topLeafID (positional_index : Int)
  let lastProgenitorID ← npGetI db.lastProgID (positional_index : Int)
  let main_progenitors ← getGalaxyIDInfo db (intArange galaxyID (topLeafID + 1))
  let descendants ← getDescendants db galaxyID
  let main_merger_tree ← buildMainMergerTree main_progenitors descendants
  let snapTrack ← gatherTrack snapCol main_merger_tree
  let aExpTrack ← indexTimeArray db.aExp snapTrack
  let redshiftTrack ← indexTimeArray db.redshifts snapTrack
  let tUniverseTrack ← indexTimeArray db.tUniverse snapTrack
  let evolution := [("SnapNum", snapTrack), ("aExp", aExpTrack),
    ("Redshift", redshiftTrack), ("tUniverse", tUniverseTrack)]
  let last_resolved_snapshot ← identifyLastResolved main_merger_tree snapTrack
  .ok ⟨subgroup_number, snap_number, positional_index, nodeIndex, galaxyID,
    topLeafID, lastProgenitorID, main_progenitors, descendants,
    main_merger_tree, evolution, aExpTrack.pyLen, last_resolved_snapshot⟩

/-- Python dict assignment `self.evolution[name] = v`: replace the entry if
the key exists, append it otherwise. -/
def cacheInsert (name : String) (v : PropVal) :
    List (String × PropVal) → List (String × PropVal)
  | [] => [(name, v)]
  | (k, w) :: rest =>
    if k = name then (k, v) :: rest else (k, w) :: cacheInsert name v rest

/-- Overwrite column `i` (0 = x, 1 = y, 2 = z) of an `(N,3)` array stored
column-wise (`self.evolution[property][:,i] = comp`).  numpy broadcasting
requires the assigned 1-d array to have length `N`; any other shape (a
different length, a 2-d array, an `(N,3)` array) raises `ValueError`. -/
def writeColumn (v : PropVal) (i : Nat) (comp : PropVal) : Except Err PropVal :=
  match v, comp with
  | .v3 x y z, .s l =>
    if l.length = x.length then
      .ok (if i = 0 then .v3 l y z else if i = 1 then .v3 x l z else .v3 x y l)
    else .error .valueError
  | _, _ => .error .valueError

/-- The scalar-column path of `Subgroup.get_property_evolution` (also the
form its recursive calls on the `_x`/`_y`/`_z` component names take, since a
component name is never itself one of the two reserved vector names): on a
cache miss, load `Subhalo/<name>` and gather it along the merged track,
then store and return it. -/
def getScalarEvolution (db : Database) (sg : Subgroup) (name : String)
    (cache : List (String × PropVal)) :
    Except Err PropVal × List (String × PropVal) :=
  match cache.lookup name with
  | some v => (.ok v, cache)
  | none =>
    match db.getSubhalo name >>= fun col => gatherTrack col sg.main_merger_tree with
    | .ok v => (.ok v, cacheInsert name v cache)
    | .error e => (.error e, cache)

/-- The vector branch of `get_property_evolution`: after storing the zeroed
`(N,3)` array under `name`, gather the three suffixed component columns in
order, writing each into its column of the cached array; the loop stops at
the first failing component, and everything already written stays cached. -/
def gatherComponents (db : Database) (sg : Subgroup) (name : String) :
    List Nat → List (String × PropVal) →
    Except Err PropVal × List (String × PropVal)
  | [], cache =>
    match cache.lookup name with
    | some v => (.ok v, cache)
    | none => (.error .keyError, cache)   -- unreachable: stored before the loop
  | i :: rest, cache =>
    match getScalarEvolution db sg
        (name ++ "_" ++ (if i = 0 then "x" else if i = 1 then "y" else "z"))
        cache with
    | (.error e, cache1) => (.error e, cache1)
    | (.ok comp, cache1) =>
      match cache1.lookup name with
      | none => (.error .keyError, cache1)  -- unreachable: stored before the loop
      | some stored =>
        match writeColumn stored i comp with
        | .error e => (.error e, cache1)
        | .ok updated => gatherComponents db sg name rest (cacheInsert name updated cache1)

/-- `Subgroup.get_property_evolution(property)`, acting on the `evolution`
cache by state passing: a cached name is returned as is; the two reserved
vector names first cache `zeros((len(self.evolution['aExp']), 3))` (a
`KeyError` if `aExp` is somehow absent — it never is after construction)
and then gather their three components; every other name takes the scalar
path. -/
def getPropertyEvolution (db : Database) (sg : Subgroup) (name : String)
    (cache : List (String × PropVal)) :
    Except Err PropVal × List (String × PropVal) :=
  match cache.lookup name with
  | some v => (.ok v, cache)
  | none =>
    if name = "CentreOfPotential" ∨ name = "Velocity" then
      match cache.lookup "aExp" with
      | none => (.error .keyError, cache)
      | some aExpEntry =>
        gatherComponents db sg name [0, 1, 2]
          (cacheInsert name
            (PropVal.v3 (List.replicate aExpEntry.pyLen 0)
              (List.replicate aExpEntry.pyLen 0)
              (List.replicate aExpEntry.pyLen 0)) cache)
    else getScalarEvolution db sg name cache

/-- Concrete catalogue realising the spec's Scenario A: three rows with
GalaxyID 100, 101, 102 forming one main branch (TopLeafID 102 throughout)
and no descendants, stored at snapshots 2, 1, 0 of a three-snapshot run. -/
def exA : Database where
  galaxyID     := [100, 101, 102]
  topLeafID    := [102, 102, 102]
  lastProgID   := [102, 102, 102]
  descendantID := [-1, -1, -1]
  nodeIndexCol := [2 * 10 ^ 12, 10 ^ 12, 0]
  subhalo      := [("SnapNum", [2, 1, 0])]
  aExp         := [11, 12, 13]
  redshifts    := [21, 22, 23]
  tUniverse    := [31, 32, 33]

/-- Concrete catalogue realising the spec's Scenario B: a row with GalaxyID
200 and TopLeafID 200 (single-entry branch) at snapshot 2 whose descendant
chain is `200 -> 205 -> -1`, the row of GalaxyID 205 sitting at snapshot 3
of a four-snapshot run.  The `Subhalo` group also carries a `Velocity_x`
column but neither `Velocity_y` nor `Velocity_z`. -/
def exB : Database where
  galaxyID     := [200, 205]
  topLeafID    := [200, 205]
  lastProgID   := [200, 205]
  descendantID := [205, -1]
  nodeIndexCol := [2 * 10 ^ 12, 3 * 10 ^ 12]
  subhalo      := [("SnapNum", [2, 3]), ("Velocity_x", [7, 8])]
  aExp         := [10, 11, 12, 13]
  redshifts    := [20, 21, 22, 23]
  tUniverse    := [30, 31, 32, 33]

/-- Concrete catalogue with a descendant cycle: GalaxyID 1 and 2 point at
each other (`DescendantID = [2, 1]`), over a two-snapshot run. -/
def exC : Database where
  galaxyID     := [1, 2]
  topLeafID    := [1, 2]
  lastProgID   := [1, 2]
  descendantID := [2, 1]
  nodeIndexCol := [0, 10 ^ 12]
  subhalo      := [("SnapNum", [0, 1])]
  aExp         := [5, 6]
  redshifts    := [15, 16]
  tUniverse    := [25, 26]

/-- Destructuring a successful `Except` bind. -/
theorem bindOk {α β : Type} {a : Except Err α} {f : α → Except Err β} {b : β} :
    (a >>= f) = .ok b ↔ ∃ x, a = .ok x ∧ f x = .ok b := by
  cases a with
  | ok x => simp [Bind.bind, Except.bind]
  | error e => simp [Bind.bind, Except.bind]

theorem countLt_le_countLe (l : List Int) (v : Int) :
    countLt l v ≤ countLe l v := by
  unfold countLt countLe
  apply List.countP_mono_left
  intro a _ h
  simp_all
  omega

/-- The left and right insertion points of `v` differ exactly when `v`
occurs in the searched view. -/
theorem countLt_ne_countLe_iff (l : List Int) (v : Int) :
    countLt l v ≠ countLe l v ↔ v ∈ l := by
  induction l with
  | nil => simp [countLt, countLe]
  | cons a t ih =>
    simp only [countLt, countLe, List.countP_cons, List.mem_cons] at *
    by_cases hav : a = v
    · subst hav
      have := countLt_le_countLe t a
      simp only [countLt, countLe] at this
      simp [lt_irrefl]
      omega
    · have : (decide (a < v)) = (decide (a ≤ v)) := by
        by_cases h : a < v
        · simp [h, le_of_lt h]
        · have : ¬ a ≤ v := by
            rcases lt_or_ge v a with h2 | h2 <;> omega
          simp [*]
      rw [this]
      constructor
      · intro hne
        right
        exact ih.mp (by omega)
      · intro hm
        rcases hm with rfl | hm
        · exact absurd rfl hav
        · have := ih.mpr hm
          omega

theorem countLt_lt_length (l : List Int) (v : Int) (h : v ∈ l) :
    countLt l v < l.length := by
  have h2 : countLe l v ≤ l.length := List.countP_le_length _
  have h3 := (countLt_ne_countLe_iff l v).mpr h
  have := countLt_le_countLe l v
  omega

/-- In a strictly sorted view the left insertion point of the `i`-th element
is `i` itself: `searchsorted` inverts positional access. -/
theorem countLt_get_of_sorted (l : List Int)
    (hs : List.Sorted (fun a b => a < b) l) :
    ∀ (i : Nat) (hi : i < l.length), countLt l (l.get ⟨i, hi⟩) = i := by
  induction l with
  | nil => intro i hi; simp at hi
  | cons a t ih =>
    rw [List.sorted_cons] at hs
    intro i hi
    match i with
    | 0 =>
      show countLt (a :: t) a = 0
      unfold countLt
      rw [List.countP_cons]
      have hz : t.countP (fun x => decide (x < a)) = 0 := by
        rw [List.countP_eq_zero]
        intro x hx
        have := hs.1 x hx
        simp
        omega
      rw [hz]
      simp
    | j + 1 =>
      have hj : j < t.length := by simpa using hi
      have hget : (a :: t).get ⟨j + 1, hi⟩ = t.get ⟨j, hj⟩ := rfl
      rw [hget]
      unfold countLt
      rw [List.countP_cons]
      have hmem : t.get ⟨j, hj⟩ ∈ t := List.get_mem t j hj
      have halt : a < t.get ⟨j, hj⟩ := hs.1 _ hmem
      have hcount := ih hs.2 j hj
      unfold countLt at hcount
      rw [hcount]
      have : t.get ⟨j, hj⟩ = t[j] := rfl
      rw [this] at halt
      simp [halt]

/-- The sorter computed by `argsort` only holds positions inside the
column. -/
theorem argsortInt_mem (l : List Int) : ∀ i ∈ argsortInt l, i < l.length := by
  intro i hi
  have hperm := List.perm_insertionSort
    (fun i j => l.getD i 0 ≤ l.getD j 0) (List.range l.length)
  have : i ∈ List.range l.length := hperm.mem_iff.mp hi
  simpa using this

/-- Every element of the searched view is an element of the input column
(for the sorter-less view they coincide; a sorter only permutes). -/
theorem mem_of_mem_searchView (input : List Int) (so : Option (List Nat))
    (hb : ∀ i ∈ so.getD [], i < input.length) :
    ∀ v ∈ searchView input so, v ∈ input := by
  intro v hv
  cases so with
  | none => exact hv
  | some s =>
    simp only [searchView, List.mem_map] at hv
    obtain ⟨i, hi, rfl⟩ := hv
    have hlt : i < input.length := hb i (by simpa using hi)
    rw [List.getD_eq_getElem input 0 hlt]
    exact List.getElem_mem hlt

/-- `quick_search` returns `None` when no needle occurs in the view. -/
theorem qsHits_eq_nil (input needles : List Int) (so : Option (List Nat))
    (h : ∀ v ∈ needles, v ∉ searchView input so) :
    qsHits input needles so = [] := by
  unfold qsHits
  rw [List.filterMap_eq_nil_iff]
  intro v hv
  have : ¬ (countLt (searchView input so) v ≠ countLe (searchView input so) v) := by
    intro hne
    exact h v hv ((countLt_ne_countLe_iff _ v).mp hne)
  simp [this]

theorem quick_search_eq_none (input needles : List Int)
    (so : Option (List Nat))
    (h : ∀ v ∈ needles, v ∉ searchView input so) :
    quick_search input needles so = none := by
  unfold quick_search
  rw [qsHits_eq_nil input needles so h]
  simp

/-- `quick_search` never returns an empty index array: its final guard is
`len(positional_index) != 0`. -/
theorem quick_search_ne_some_nil (input needles : List Int)
    (so : Option (List Nat)) : quick_search input needles so ≠ some [] := by
  unfold quick_search
  intro hcontra
  split at hcontra
  · exact Option.noConfusion hcontra
  · rename_i hfm
    have hpay := Option.some.inj hcontra
    cases so with
    | none => exact hfm hpay
    | some s => exact hfm (List.map_eq_nil_iff.mp hpay)

theorem quick_search_eq_some_sorted (input needles : List Int)
    (hne : qsHits input needles none ≠ []) :
    quick_search input needles none = some (qsHits input needles none) := by
  unfold quick_search
  rw [if_neg hne]

/-- A successful `quick_search` means some needle occurred in the view. -/
theorem quick_search_some_mem (input needles : List Int)
    (so : Option (List Nat)) (ps : List Nat)
    (h : quick_search input needles so = some ps) :
    ∃ v ∈ needles, v ∈ searchView input so := by
  by_contra hc
  push_neg at hc
  rw [quick_search_eq_none input needles so hc] at h
  exact Option.noConfusion h

/-- A throwaway `Subgroup` value used only as the default of `getOk`. -/
def defaultSubgroup : Subgroup :=
  ⟨0, 0, 0, 0, 0, 0, 0, ⟨[], none, .vec []⟩, none, ⟨[], none, .vec []⟩, [], 0, 0⟩

/-- Extract the payload of a successful construction (used to name concrete
constructed subgroups inside closed statements). -/
def getOk : Except Err Subgroup → Subgroup
  | .ok sg => sg
  | .error _ => defaultSubgroup

/-- C9: for every input array and every set of search values of which none
matches any element, `quick_search` returns the absent value (`None`)
rather than an empty array, and an empty result array is never returned
through the function's normal return path (its final guard demands a
non-empty match list). -/
theorem quick_search_miss_returns_none (input needles : List Int)
    (so : Option (List Nat))
    (hb : ∀ i ∈ so.getD [], i < input.length)
    (hmiss : ∀ v ∈ needles, v ∉ input) :
    quick_search input needles so = none ∧
      ∀ (a b : List Int) (c : Option (List Nat)),
        quick_search a b c ≠ some [] := by
  constructor
  · apply quick_search_eq_none
    intro v hv hview
    exact hmiss v hv (mem_of_mem_searchView input so hb v hview)
  · intro a b c
    exact quick_search_ne_some_nil a b c

/-- Witness for C9 at a concrete miss: no element of `[2, 4]` occurs in
`[1, 3, 5]` and the search returns `None`. -/
theorem quick_search_miss_returns_none_witness :
    ((∀ i ∈ (none : Option (List Nat)).getD [], i < ([1, 3, 5] : List Int).length) ∧
      ∀ v ∈ ([2, 4] : List Int), v ∉ ([1, 3, 5] : List Int)) ∧
    (quick_search [1, 3, 5] [2, 4] none = none ∧
      ∀ (a b : List Int) (c : Option (List Nat)),
        quick_search a b c ≠ some []) :=
  ⟨⟨by decide, by decide⟩,
    quick_search_miss_returns_none [1, 3, 5] [2, 4] none (by decide) (by decide)⟩

/-- C6 counterexample: in the concrete catalogue `exB`, GalaxyID 999 and
NodeIndex 7 are absent, yet both conversions return a normal value — the
whole opposite column behind numpy's newaxis (`column[None]`) — instead of
failing with a not-found condition. -/
theorem identifier_miss_counterexample :
    (999 : Int) ∉ exB.galaxyID ∧ (7 : Int) ∉ exB.nodeIndexCol ∧
    exB.galaxyID_to_nodeIndex 999 =
      .ok (.mat [[2 * 10 ^ 12, 3 * 10 ^ 12]]) ∧
    exB.nodeIndex_to_galaxyID 7 = .ok (.mat [[200, 205]]) := by
  decide

/-- C6 amended: for every GalaxyID absent from the catalogue's GalaxyID
column, `galaxyID_to_nodeIndex` does not fail — `quick_search` returns
`None` and indexing by `None` (newaxis) silently yields the entire
nodeIndex column with a prepended axis; symmetrically for
`nodeIndex_to_galaxyID` on an absent NodeIndex. -/
theorem identifier_miss_returns_full_column (db : Database) (g ni : Int)
    (hg : g ∉ db.galaxyID) (hni : ni ∉ db.nodeIndexCol) :
    db.galaxyID_to_nodeIndex g = .ok (.mat [db.nodeIndexCol]) ∧
    db.nodeIndex_to_galaxyID ni = .ok (.mat [db.galaxyID]) := by
  constructor
  · unfold Database.galaxyID_to_nodeIndex
    rw [quick_search_eq_none]
    intro v hv hview
    have hvg : v = g := by simpa using hv
    subst hvg
    refine hg (mem_of_mem_searchView db.galaxyID (some db.galaxyID_sorter) ?_ v hview)
    intro i hi
    exact argsortInt_mem db.galaxyID i (by simpa using hi)
  · unfold Database.nodeIndex_to_galaxyID
    rw [quick_search_eq_none]
    intro v hv hview
    have hvn : v = ni := by simpa using hv
    subst hvn
    exact hni hview

/-- Witness for C6 (amended) at the concrete catalogue `exB`. -/
theorem identifier_miss_returns_full_column_witness :
    ((999 : Int) ∉ exB.galaxyID ∧ (7 : Int) ∉ exB.nodeIndexCol) ∧
    (exB.galaxyID_to_nodeIndex 999 = .ok (.mat [exB.nodeIndexCol]) ∧
      exB.nodeIndex_to_galaxyID 7 = .ok (.mat [exB.galaxyID])) :=
  ⟨⟨by decide, by decide⟩,
    identifier_miss_returns_full_column exB 999 7 (by decide) (by decide)⟩

/-- C2 counterexample: in the Scenario-B catalogue `exB` (row GalaxyID 200,
TopLeafID 200 at snapshot 2, descendant chain `200 -> 205 -> -1`, the row
of GalaxyID 205 carrying SnapNum 3) the constructed merged track's GalaxyID
sequence is `[205, 200]` — the descendant chain is placed *before* the main
branch — not `[200, 205]`, and `last_resolved_snapshot` is 2, the SnapNum
at the row of GalaxyID 200 (track position `k+1 = 1` after the break at
`k = 0`), not 3, the SnapNum at the row of GalaxyID 205. -/
theorem scenarioB_track_counterexample :
    (mkSubgroup exB 0 2).map
        (fun sg => (sg.main_merger_tree.galaxyID, sg.last_resolved_snapshot)) =
      .ok ([205, 200], 2) ∧
    ([205, 200] : List Int) ≠ [200, 205] ∧
    exB.galaxyID.get? 1 = some 205 ∧
    ((exB.subhalo.lookup "SnapNum").getD []).get? 1 = some 3 ∧
    (2 : Int) ≠ 3 := by
  decide

/-- C2 amended: for the Scenario-B configuration the merged track's
GalaxyID sequence is `[205, 200]` (reversed descendant chain concatenated
*before* the single-entry main branch), and — the first GalaxyID difference
being `-5 ≠ 1` — `last_resolved_snapshot` equals the SnapNum stored at the
catalogue row whose GalaxyID is 200 (the track row at position 1,
immediately after the break), namely the requested snapshot 2. -/
theorem scenarioB_track_amended :
    (mkSubgroup exB 0 2).map
        (fun sg => (sg.main_merger_tree.galaxyID, sg.last_resolved_snapshot)) =
      .ok ([205, 200], 2) ∧
    exB.galaxyID.get? 0 = some 200 ∧
    ((exB.subhalo.lookup "SnapNum").getD []).get? 0 = some 2 := by
  decide

/-- The `where(SnapNum == snap)[0]` index list is as long as the count of
rows whose SnapNum equals the requested snapshot. -/
theorem length_whereEq (l : List Int) (v : Int) :
    ((List.range l.length).filter (fun i => l.getD i 0 = v)).length
      = l.countP (fun x => decide (x = v)) := by
  induction l with
  | nil => simp
  | cons a t ih =>
    have hr : List.range (a :: t).length
        = 0 :: (List.range t.length).map (fun i => i + 1) := by
      simpa using List.range_succ_eq_map t.length
    have hcongr : ((List.range t.length).filter
          ((fun i => decide ((a :: t).getD i 0 = v)) ∘ fun i => i + 1))
        = ((List.range t.length).filter (fun i => decide (t.getD i 0 = v))) :=
      List.filter_congr (fun i _ => by
        simp [Function.comp, List.getD_cons_succ])
    have hmap : (((List.range t.length).map (fun i => i + 1)).filter
        (fun i => decide ((a :: t).getD i 0 = v))).length
        = t.countP (fun x => decide (x = v)) := by
      rw [List.filter_map]
      rw [hcongr, List.length_map]
      exact ih
    rw [hr, List.filter_cons, List.countP_cons]
    simp only [List.getD_cons_zero]
    by_cases ha : a = v
    · have hb : decide (a = v) = true := by simpa using ha
      rw [if_pos hb, if_pos hb, List.length_cons, hmap]
    · have hb : ¬ (decide (a = v) = true) := by simpa using ha
      rw [if_neg hb, if_neg hb, hmap]
      omega

/-- C8: for every snapshot and every `subgroup_number` at least the count of
catalogue rows whose SnapNum equals that snapshot, `Subgroup` construction
fails with the out-of-range condition (`IndexError` from
`where(SnapNum == snap)[0][subgroup_number]`), so no instance — in
particular no partially-initialized instance — is produced: the
constructor's value is an error, not a `Subgroup`. -/
theorem construction_out_of_range (db : Database) (snapCol : List Int)
    (subgroup_number snap_number : Int)
    (hcol : db.getSubhalo "SnapNum" = .ok snapCol)
    (hge : (snapCol.countP (fun s => decide (s = snap_number)) : Int)
      ≤ subgroup_number) :
    mkSubgroup db subgroup_number snap_number = .error .indexError := by
  have hcount : (0 : Int) ≤ subgroup_number := by
    have : (0 : Int) ≤ (snapCol.countP (fun s => decide (s = snap_number)) : Int) := by
      positivity
    omega
  have hfail : getPositionalIndex snapCol snap_number subgroup_number
      = .error .indexError := by
    unfold getPositionalIndex
    rw [dif_neg, dif_neg]
    · intro hcontra
      omega
    · intro hcontra
      have := hcontra.2
      have hlen := length_whereEq snapCol snap_number
      omega
  unfold mkSubgroup
  rw [hcol]
  simp only [Bind.bind, Except.bind]
  rw [hfail]

/-- Witness for C8: snapshot 2 of `exB` holds exactly one row, so requesting
subgroup number 1 there aborts construction with the out-of-range error. -/
theorem construction_out_of_range_witness :
    (exB.getSubhalo "SnapNum" = .ok [2, 3] ∧
      ((([2, 3] : List Int).countP (fun s => decide (s = 2)) : Int) ≤ 1)) ∧
    mkSubgroup exB 1 2 = .error .indexError :=
  ⟨⟨by decide, by decide⟩,
    construction_out_of_range exB [2, 3] 1 2 (by decide) (by decide)⟩

/-- Anatomy of a successful construction: every stage of `__init__`
succeeded and the stored fields are exactly the stage results. -/
theorem mkSubgroup_ok_destruct (db : Database) (sub snap : Int)
    (sg : Subgroup) (h : mkSubgroup db sub snap = .ok sg) :
    ∃ snapCol posIdx,
      db.getSubhalo "SnapNum" = .ok snapCol ∧
      getPositionalIndex snapCol snap sub = .ok posIdx ∧
      npGetI db.galaxyID (posIdx : Int) = .ok sg.galaxyID ∧
      npGetI db.topLeafID (posIdx : Int) = .ok sg.topLeafID ∧
      getGalaxyIDInfo db (intArange sg.galaxyID (sg.topLeafID + 1))
        = .ok sg.main_progenitors ∧
      getDescendants db sg.galaxyID = .ok sg.descendants ∧
      buildMainMergerTree sg.main_progenitors sg.descendants
        = .ok sg.main_merger_tree ∧
      ∃ snapTrack,
        gatherTrack snapCol sg.main_merger_tree = .ok snapTrack ∧
        sg.evolution.lookup "SnapNum" = some snapTrack ∧
        identifyLastResolved sg.main_merger_tree snapTrack
          = .ok sg.last_resolved_snapshot := by
  unfold mkSubgroup at h
  rw [bindOk] at h
  obtain ⟨snapCol, hcol, h⟩ := h
  rw [bindOk] at h
  obtain ⟨posIdx, hpos, h⟩ := h
  rw [bindOk] at h
  obtain ⟨ni, hni, h⟩ := h
  rw [bindOk] at h
  obtain ⟨gid, hgid, h⟩ := h
  rw [bindOk] at h
  obtain ⟨tlid, htlid, h⟩ := h
  rw [bindOk] at h
  obtain ⟨lpid, hlpid, h⟩ := h
  rw [bindOk] at h
  obtain ⟨mainProg, hmain, h⟩ := h
  rw [bindOk] at h
  obtain ⟨desc, hdesc, h⟩ := h
  rw [bindOk] at h
  obtain ⟨tree, htree, h⟩ := h
  rw [bindOk] at h
  obtain ⟨snapTrack, hsnapTrack, h⟩ := h
  rw [bindOk] at h
  obtain ⟨aExpTrack, haexp, h⟩ := h
  rw [bindOk] at h
  obtain ⟨redTrack, hred, h⟩ := h
  rw [bindOk] at h
  obtain ⟨tUniTrack, htuni, h⟩ := h
  rw [bindOk] at h
  obtain ⟨last, hlast, h⟩ := h
  have heq := Except.ok.inj h
  refine ⟨snapCol, posIdx, hcol, hpos, ?_, ?_, ?_, ?_, ?_,
    snapTrack, ?_, ?_, ?_⟩ <;> rw [← heq]
  · exact hgid
  · exact htlid
  · exact hmain
  · exact hdesc
  · exact htree
  · exact hsnapTrack
  · simp [List.lookup]
  · exact hlast

/-- The `galaxyID` entry of a `get_galaxyID_info` dictionary is the queried
array itself. -/
theorem getGalaxyIDInfo_galaxyID (db : Database) (ids : List Int)
    (info : GalaxyInfo) (h : getGalaxyIDInfo db ids = .ok info) :
    info.galaxyID = ids := by
  unfold getGalaxyIDInfo at h
  split at h
  · cases Except.ok.inj h
    rfl
  · rename_i ps _
    cases hng : npGets db.nodeIndexCol ps with
    | ok nis =>
      rw [hng] at h
      cases Except.ok.inj h
      rfl
    | error e =>
      rw [hng] at h
      exact Except.noConfusion h

theorem intArange_length (a b : Int) : (intArange a b).length = (b - a).toNat := by
  unfold intArange
  rw [List.length_map, List.length_range]

theorem intArange_getq (a b : Int) (i : Nat) (hi : i < (b - a).toNat) :
    (intArange a b).get? i = some (a + i) := by
  unfold intArange
  rw [List.get?_eq_getElem?]
  rw [List.getElem?_map]
  rw [List.getElem?_range hi]
  rfl

/-- C3: for every constructed `Subgroup` (on well-formed data, where
`TopLeafID ≥ GalaxyID` as the data model requires), the main-progenitor
branch's galaxyID sequence has length `TopLeafID - GalaxyID + 1` and its
`i`-th entry is `GalaxyID + i` — exactly the ascending consecutive integers
from `GalaxyID` to `TopLeafID` inclusive. -/
theorem main_progenitors_contiguous (db : Database) (sub snap : Int)
    (sg : Subgroup) (h : mkSubgroup db sub snap = .ok sg)
    (hwf : sg.galaxyID ≤ sg.topLeafID) :
    (sg.main_progenitors.galaxyID.length : Int)
        = sg.topLeafID - sg.galaxyID + 1 ∧
    ∀ i : Nat, i < sg.main_progenitors.galaxyID.length →
      sg.main_progenitors.galaxyID.get? i = some (sg.galaxyID + i) := by
  obtain ⟨snapCol, posIdx, hcol, hpos, hgid, htlid, hmain, hrest⟩ :=
    mkSubgroup_ok_destruct db sub snap sg h
  have hids := getGalaxyIDInfo_galaxyID db _ _ hmain
  constructor
  · rw [hids, intArange_length]
    omega
  · intro i hi
    rw [hids]
    refine intArange_getq _ _ i ?_
    rw [hids, intArange_length] at hi
    omega

/-- Witness for C3 at Scenario A (`exA`, subgroup 0 of snapshot 2): branch
`[100, 101, 102]`, of length `102 - 100 + 1`. -/
theorem main_progenitors_contiguous_witness :
    (mkSubgroup exA 0 2 = .ok (getOk (mkSubgroup exA 0 2)) ∧
      (getOk (mkSubgroup exA 0 2)).galaxyID
        ≤ (getOk (mkSubgroup exA 0 2)).topLeafID) ∧
    ((getOk (mkSubgroup exA 0 2)).main_progenitors.galaxyID.length : Int)
        = (getOk (mkSubgroup exA 0 2)).topLeafID
          - (getOk (mkSubgroup exA 0 2)).galaxyID + 1 :=
  ⟨⟨by decide, by decide⟩,
    (main_progenitors_contiguous exA 0 2 (getOk (mkSubgroup exA 0 2))
      (by decide) (by decide)).1⟩

/-- C1: for every constructed `Subgroup`, the merged evolutionary track is
the reversed nearest-first descendant chain concatenated before the
main-progenitor chain, field by field (galaxyID, positional_index,
nodeIndex); when the descendant chain is absent
(`get_descendants` returned `None`) the track is the main-progenitor chain
alone.  (The converse absence — a missing main-progenitor dictionary — is
dead code: `get_main_progenitors` always returns a dictionary.) -/
theorem merger_tree_merge (db : Database) (sub snap : Int) (sg : Subgroup)
    (h : mkSubgroup db sub snap = .ok sg) :
    (sg.descendants = none → sg.main_merger_tree = sg.main_progenitors) ∧
    (∀ d, sg.descendants = some d →
      (∃ ids, ids ≠ [] ∧
          walkDescendants db db.galaxyID.length sg.galaxyID = .ok ids ∧
          d.galaxyID = ids.reverse) ∧
      sg.main_merger_tree.galaxyID
        = d.galaxyID ++ sg.main_progenitors.galaxyID ∧
      hstackPos d.positional_index sg.main_progenitors.positional_index
        = .ok sg.main_merger_tree.positional_index ∧
      hstackNp d.nodeIndex sg.main_progenitors.nodeIndex
        = .ok sg.main_merger_tree.nodeIndex ∧
      (∀ dp mp, d.positional_index = some dp →
        sg.main_progenitors.positional_index = some mp →
        sg.main_merger_tree.positional_index = some (dp ++ mp)) ∧
      (∀ dn mn, d.nodeIndex = .vec dn →
        sg.main_progenitors.nodeIndex = .vec mn →
        sg.main_merger_tree.nodeIndex = .vec (dn ++ mn))) := by
  obtain ⟨snapCol, posIdx, hcol, hpos, hgid, htlid, hmain, hdesc, htree, hrest⟩ :=
    mkSubgroup_ok_destruct db sub snap sg h
  constructor
  · intro hnone
    rw [hnone] at htree
    unfold buildMainMergerTree at htree
    exact (Except.ok.inj htree).symm
  · intro d hd
    rw [hd] at htree hdesc
    unfold buildMainMergerTree at htree
    rw [bindOk] at htree
    obtain ⟨pos, hpos2, htree⟩ := htree
    rw [bindOk] at htree
    obtain ⟨ni2, hni2, htree⟩ := htree
    have heq := Except.ok.inj htree
    refine ⟨?_, ?_, ?_, ?_, ?_, ?_⟩
    · unfold getDescendants at hdesc
      split at hdesc
      · exact Option.noConfusion (Except.ok.inj hdesc)
      · rename_i ids hne hw
        cases hinfo : getGalaxyIDInfo db ids.reverse with
        | ok info =>
          rw [hinfo] at hdesc
          have hid : info = d := Option.some.inj (Except.ok.inj hdesc)
          refine ⟨ids, hne, hw, ?_⟩
          rw [← hid]
          exact getGalaxyIDInfo_galaxyID db _ _ hinfo
        | error e =>
          rw [hinfo] at hdesc
          exact Except.noConfusion hdesc
      · exact Except.noConfusion hdesc
      · exact Except.noConfusion hdesc
    · rw [← heq]
    · rw [← heq]
      exact hpos2
    · rw [← heq]
      exact hni2
    · intro dp mp hdp hmp
      rw [hdp, hmp] at hpos2
      unfold hstackPos at hpos2
      rw [← heq]
      exact (Except.ok.inj hpos2).symm
    · intro dn mn hdn hmn
      rw [hdn, hmn] at hni2
      unfold hstackNp at hni2
      rw [← heq]
      exact (Except.ok.inj hni2).symm

/-- Witness for C1 at Scenario B (`exB`, subgroup 0 of snapshot 2), whose
descendant chain is the single entry 205. -/
theorem merger_tree_merge_witness :
    mkSubgroup exB 0 2 = .ok (getOk (mkSubgroup exB 0 2)) ∧
    ((getOk (mkSubgroup exB 0 2)).descendants = none →
      (getOk (mkSubgroup exB 0 2)).main_merger_tree
        = (getOk (mkSubgroup exB 0 2)).main_progenitors) ∧
    (∀ d, (getOk (mkSubgroup exB 0 2)).descendants = some d →
      (∃ ids, ids ≠ [] ∧
          walkDescendants exB exB.galaxyID.length
            (getOk (mkSubgroup exB 0 2)).galaxyID = .ok ids ∧
          d.galaxyID = ids.reverse) ∧
      (getOk (mkSubgroup exB 0 2)).main_merger_tree.galaxyID
        = d.galaxyID ++ (getOk (mkSubgroup exB 0 2)).main_progenitors.galaxyID ∧
      hstackPos d.positional_index
          (getOk (mkSubgroup exB 0 2)).main_progenitors.positional_index
        = .ok (getOk (mkSubgroup exB 0 2)).main_merger_tree.positional_index ∧
      hstackNp d.nodeIndex (getOk (mkSubgroup exB 0 2)).main_progenitors.nodeIndex
        = .ok (getOk (mkSubgroup exB 0 2)).main_merger_tree.nodeIndex ∧
      (∀ dp mp, d.positional_index = some dp →
        (getOk (mkSubgroup exB 0 2)).main_progenitors.positional_index = some mp →
        (getOk (mkSubgroup exB 0 2)).main_merger_tree.positional_index
          = some (dp ++ mp)) ∧
      (∀ dn mn, d.nodeIndex = .vec dn →
        (getOk (mkSubgroup exB 0 2)).main_progenitors.nodeIndex = .vec mn →
        (getOk (mkSubgroup exB 0 2)).main_merger_tree.nodeIndex
          = .vec (dn ++ mn))) :=
  ⟨by decide, merger_tree_merge exB 0 2 (getOk (mkSubgroup exB 0 2)) (by decide)⟩

/-- Characterisation of a successful fancy-index gather: the result is as
long as the position list and reads the column entrywise. -/
theorem npGets_ok (l : List Int) (ps : List Nat) (vs : List Int)
    (h : npGets l ps = .ok vs) :
    vs.length = ps.length ∧
    ∀ i p, ps.get? i = some p → p < l.length ∧ vs.get? i = some (l.getD p 0) := by
  induction ps generalizing vs with
  | nil =>
    unfold npGets at h
    cases Except.ok.inj h
    exact ⟨rfl, fun i p hip => Option.noConfusion hip⟩
  | cons p ps ih =>
    unfold npGets at h
    split at h
    · rename_i hp
      cases hrec : npGets l ps with
      | ok vs2 =>
        rw [hrec] at h
        cases Except.ok.inj h
        obtain ⟨hlen, helem⟩ := ih vs2 hrec
        constructor
        · simp [hlen]
        · intro i q hiq
          cases i with
          | zero =>
            cases Option.some.inj hiq
            refine ⟨hp, ?_⟩
            rw [List.get?_cons_zero]
            rw [List.getD_eq_getElem l 0 hp]
            rfl
          | succ j =>
            rw [List.get?_cons_succ] at hiq ⊢
            exact helem j q hiq
      | error e =>
        rw [hrec] at h
        exact Except.noConfusion h
    · exact Except.noConfusion h

/-- A merged track whose cached `SnapNum` is a 1-d array has a real
positional index list, and the cached array is its gather. -/
theorem gatherTrack_s (col : List Int) (tree : GalaxyInfo) (lst : List Int)
    (h : gatherTrack col tree = .ok (.s lst)) :
    ∃ ps, tree.positional_index = some ps ∧ npGets col ps = .ok lst := by
  unfold gatherTrack at h
  split at h
  · rename_i ps hps
    cases hg : npGets col ps with
    | ok vs =>
      rw [hg] at h
      cases PropVal.s.inj (Except.ok.inj h)
      exact ⟨ps, hps, hg⟩
    | error e =>
      rw [hg] at h
      exact Except.noConfusion h
  · exact PropVal.noConfusion (Except.ok.inj h)

/-- C4: for every constructed `Subgroup`, if every consecutive GalaxyID
difference along the merged track is exactly 1 then
`last_resolved_snapshot = -1`; otherwise, with `k` the first position whose
difference is not 1, `last_resolved_snapshot` is the SnapNum of the track
row at position `k+1` — both as the value cached along the track and as the
`SnapNum` column entry of the catalogue row the track holds there. -/
theorem last_resolved_break_detection (db : Database) (sub snap : Int)
    (sg : Subgroup) (h : mkSubgroup db sub snap = .ok sg) :
    ((∀ d ∈ npDiff sg.main_merger_tree.galaxyID, d = 1) →
      sg.last_resolved_snapshot = -1) ∧
    (∀ k, (npDiff sg.main_merger_tree.galaxyID).findIdx?
        (fun d => d ≠ 1) = some k →
      ∃ lst, sg.evolution.lookup "SnapNum" = some (.s lst) ∧
        lst.get? (k + 1) = some sg.last_resolved_snapshot ∧
        ∃ ps p snapCol, sg.main_merger_tree.positional_index = some ps ∧
          ps.get? (k + 1) = some p ∧
          db.getSubhalo "SnapNum" = .ok snapCol ∧
          snapCol.get? p = some sg.last_resolved_snapshot) := by
  obtain ⟨snapCol, posIdx, hcol, hpos, hgid, htlid, hmain, hdesc, htree,
    snapTrack, hsnapT, hlook, hident⟩ := mkSubgroup_ok_destruct db sub snap sg h
  constructor
  · intro hall
    unfold identifyLastResolved at hident
    have hnone : (npDiff sg.main_merger_tree.galaxyID).findIdx?
        (fun d => d ≠ 1) = none := by
      rw [List.findIdx?_eq_none_iff]
      intro x hx
      simp [hall x hx]
    rw [hnone] at hident
    exact (Except.ok.inj hident).symm
  · intro k hk
    unfold identifyLastResolved at hident
    split at hident
    · rename_i hnone
      rw [hk] at hnone
      exact Option.noConfusion hnone
    · rename_i k2 hk2
      rw [hk] at hk2
      cases Option.some.inj hk2
      split at hident
      · rename_i lst
        split at hident
        · rename_i v hget
          have hv : v = sg.last_resolved_snapshot := Except.ok.inj hident
          refine ⟨lst, hlook, by rw [hget, hv], ?_⟩
          obtain ⟨ps, hps, hnp⟩ := gatherTrack_s snapCol _ lst hsnapT
          obtain ⟨hlen, helem⟩ := npGets_ok snapCol ps lst hnp
          have hklt : k + 1 < lst.length := by
            obtain ⟨hh, _⟩ := List.get?_eq_some.mp hget
            exact hh
          have hpslt : k + 1 < ps.length := by omega
          have hpq : ps.get? (k + 1) = some (ps.get ⟨k + 1, hpslt⟩) :=
            List.get?_eq_get hpslt
          obtain ⟨hplt, hvt⟩ := helem (k + 1) _ hpq
          refine ⟨ps, ps.get ⟨k + 1, hpslt⟩, snapCol, hps, hpq, hcol, ?_⟩
          rw [hget] at hvt
          have hveq := Option.some.inj hvt
          rw [List.get?_eq_get hplt, ← hv, hveq]
          rw [List.getD_eq_getElem snapCol 0 hplt]
          rfl
        · exact Except.noConfusion hident
      · exact Except.noConfusion hident

/-- Witness for C4: the unbroken Scenario-A track yields `-1`, and the
broken Scenario-B track (first bad difference at position 0) yields the
SnapNum cached at track position 1. -/
theorem last_resolved_break_detection_witness :
    (mkSubgroup exA 0 2 = .ok (getOk (mkSubgroup exA 0 2)) ∧
      mkSubgroup exB 0 2 = .ok (getOk (mkSubgroup exB 0 2)) ∧
      (∀ d ∈ npDiff (getOk (mkSubgroup exA 0 2)).main_merger_tree.galaxyID,
        d = 1) ∧
      (npDiff (getOk (mkSubgroup exB 0 2)).main_merger_tree.galaxyID).findIdx?
        (fun d => d ≠ 1) = some 0) ∧
    (getOk (mkSubgroup exA 0 2)).last_resolved_snapshot = -1 ∧
    (∃ lst, (getOk (mkSubgroup exB 0 2)).evolution.lookup "SnapNum"
        = some (.s lst) ∧
      lst.get? 1 = some (getOk (mkSubgroup exB 0 2)).last_resolved_snapshot ∧
      ∃ ps p snapCol,
        (getOk (mkSubgroup exB 0 2)).main_merger_tree.positional_index
          = some ps ∧
        ps.get? 1 = some p ∧
        exB.getSubhalo "SnapNum" = .ok snapCol ∧
        snapCol.get? p
          = some (getOk (mkSubgroup exB 0 2)).last_resolved_snapshot) :=
  ⟨⟨by decide, by decide, by decide, by decide⟩,
    (last_resolved_break_detection exA 0 2 (getOk (mkSubgroup exA 0 2))
      (by decide)).1 (by decide),
    (last_resolved_break_detection exB 0 2 (getOk (mkSubgroup exB 0 2))
      (by decide)).2 0 (by decide)⟩

/-- C7: for every valid pair `(snapshot, subgroup_number)` —
`subgroup_number` below the count of catalogue rows grouped at that
snapshot — with the snapshot's nodeIndex grouping strictly ascending (the
sortedness `quick_search` documents as its haystack precondition),
`nodeIndex_to_subgroup` applied to
`subgroup_to_nodeIndex(subgroup_number, snapshot)` returns exactly the pair
`(subgroup_number, snapshot)`. -/
theorem nodeIndex_roundtrip (db : Database) (sub snap : Int)
    (hsub0 : 0 ≤ sub) (hsnap0 : 0 ≤ snap)
    (hsnap : snap.toNat < db.all_nodeIndex.length)
    (hsorted : List.Sorted (fun a b => a < b)
      (db.all_nodeIndex.get ⟨snap.toNat, hsnap⟩))
    (hcount : sub < ((db.all_nodeIndex.get ⟨snap.toNat, hsnap⟩).length : Int)) :
    (db.subgroup_to_nodeIndex sub snap).bind db.nodeIndex_to_subgroup
      = .ok (sub, snap) := by
  set grouping := db.all_nodeIndex.get ⟨snap.toNat, hsnap⟩ with hgdef
  have hlist : pyListGet db.all_nodeIndex snap = .ok grouping := by
    unfold pyListGet
    rw [dif_pos]
    constructor
    · exact hsnap0
    · omega
  have hlt : sub.toNat < grouping.length := by omega
  have hni : npGetI grouping sub = .ok (grouping.get ⟨sub.toNat, hlt⟩) := by
    unfold npGetI
    rw [dif_pos]
    constructor
    · exact hsub0
    · omega
  set ni := grouping.get ⟨sub.toNat, hlt⟩ with hnidef
  have hmem : ni ∈ grouping := List.get_mem grouping _ _
  have hgroup : grouping = db.nodeIndexCol.filter
      (fun x => Int.fdiv x (10 ^ 12) = Int.ofNat snap.toNat) := by
    rw [hgdef]
    unfold Database.all_nodeIndex
    rw [List.get_eq_getElem]
    rw [List.getElem_map]
    rw [List.getElem_range]
  have hfd : Int.fdiv ni (10 ^ 12) = snap := by
    have hmem2 := hgroup ▸ hmem
    have h2 := (List.mem_filter.mp hmem2).2
    have h3 : Int.fdiv ni (10 ^ 12) = Int.ofNat snap.toNat := by
      simpa using h2
    have h4 : Int.ofNat snap.toNat = ((snap.toNat : Nat) : Int) := rfl
    have h5 : ((snap.toNat : Nat) : Int) = snap := Int.toNat_of_nonneg hsnap0
    rw [h3, h4, h5]
  have hcntLt : countLt grouping ni = sub.toNat :=
    countLt_get_of_sorted grouping hsorted sub.toNat hlt
  have hneq : countLt grouping ni ≠ countLe grouping ni :=
    (countLt_ne_countLe_iff grouping ni).mpr hmem
  have hhits : qsHits grouping [ni] none = [sub.toNat] := by
    unfold qsHits
    rw [List.filterMap_cons]
    rw [List.filterMap_nil]
    have hview : searchView grouping none = grouping := rfl
    rw [hview, if_pos hneq, hcntLt]
  have hqs : quick_search grouping [ni] none = some [sub.toNat] := by
    unfold quick_search
    rw [hhits]
    simp
  show Except.bind (db.subgroup_to_nodeIndex sub snap) db.nodeIndex_to_subgroup
      = .ok (sub, snap)
  unfold Database.subgroup_to_nodeIndex
  rw [hlist]
  show Except.bind (npGetI grouping sub) db.nodeIndex_to_subgroup
      = .ok (sub, snap)
  rw [hni]
  show db.nodeIndex_to_subgroup ni = .ok (sub, snap)
  unfold Database.nodeIndex_to_subgroup
  rw [hfd, hlist]
  show (match quick_search grouping [ni] none with
    | some (subgroup_number :: _) =>
      Except.ok ((subgroup_number : Int), snap)
    | some [] => Except.error Err.valueError
    | none => Except.error Err.valueError) = .ok (sub, snap)
  rw [hqs]
  show Except.ok ((sub.toNat : Int), snap) = .ok (sub, snap)
  rw [Int.toNat_of_nonneg hsub0]

/-- Witness for C7 at `exB`: the pair (snapshot 3, subgroup 0) round-trips
through NodeIndex `3e12`. -/
theorem nodeIndex_roundtrip_witness :
    ((0 : Int) ≤ 0 ∧ (0 : Int) ≤ 3 ∧ (3 : Int).toNat < exB.all_nodeIndex.length) ∧
    (exB.subgroup_to_nodeIndex 0 3).bind exB.nodeIndex_to_subgroup
      = .ok (0, 3) :=
  ⟨⟨by decide, by decide, by decide⟩,
    nodeIndex_roundtrip exB 0 3 (by decide) (by decide) (by decide)
      (by decide) (by decide)⟩

/-- Looking up the key just written by a dict assignment returns the new
value. -/
theorem lookup_cacheInsert_self (name : String) (v : PropVal)
    (c : List (String × PropVal)) :
    (cacheInsert name v c).lookup name = some v := by
  induction c with
  | nil => simp [cacheInsert, List.lookup]
  | cons kw rest ih =>
    obtain ⟨k, w⟩ := kw
    unfold cacheInsert
    by_cases hk : k = name
    · subst hk
      simp [List.lookup]
    · rw [if_neg hk]
      have hk2 : (name == k) = false := by
        simp
        exact fun hc => hk hc.symm
      simp only [List.lookup, hk2]
      exact ih

/-- A dict assignment never deletes: any key present before is present
after. -/
theorem lookup_cacheInsert_preserve (k : String) (v : PropVal) (n : String)
    (c : List (String × PropVal)) (h : ∃ w, c.lookup n = some w) :
    ∃ w, (cacheInsert k v c).lookup n = some w := by
  by_cases hk : k = n
  · subst hk
    exact ⟨v, lookup_cacheInsert_self k v c⟩
  · induction c with
    | nil =>
      obtain ⟨w, hw⟩ := h
      simp [List.lookup] at hw
    | cons kw rest ih =>
      obtain ⟨k2, w2⟩ := kw
      unfold cacheInsert
      by_cases hk2 : k2 = k
      · subst hk2
        obtain ⟨w, hw⟩ := h
        have hn2 : (n == k2) = false := by
          simp
          exact fun hc => hk (hc.symm)
        simp only [List.lookup, hn2] at hw
        rw [if_pos rfl]
        refine ⟨w, ?_⟩
        simp only [List.lookup, hn2]
        exact hw
      · rw [if_neg hk2]
        obtain ⟨w, hw⟩ := h
        by_cases hn : n = k2
        · subst hn
          simp only [List.lookup, beq_self_eq_true] at hw ⊢
          exact ⟨w, hw⟩
        · have hn2 : (n == k2) = false := by simp [hn]
          simp only [List.lookup, hn2] at hw ⊢
          exact ih ⟨w, hw⟩

/-- The scalar path of the cache never deletes an existing entry. -/
theorem getScalarEvolution_preserves (db : Database) (sg : Subgroup)
    (name n : String) (cache : List (String × PropVal))
    (h : ∃ w, cache.lookup n = some w) :
    ∃ w, (getScalarEvolution db sg name cache).2.lookup n = some w := by
  unfold getScalarEvolution
  split
  · exact h
  · split
    · exact lookup_cacheInsert_preserve name _ n cache h
    · exact h

/-- Once the zeroed `(N,3)` array is in the cache, the component loop keeps
an entry under the vector name in every outcome, success or failure. -/
theorem gatherComponents_preserves (db : Database) (sg : Subgroup)
    (name : String) (idxs : List Nat) :
    ∀ cache, (∃ w, cache.lookup name = some w) →
      ∃ w, (gatherComponents db sg name idxs cache).2.lookup name = some w := by
  induction idxs with
  | nil =>
    intro cache h
    unfold gatherComponents
    obtain ⟨w, hw⟩ := h
    rw [hw]
    exact ⟨w, hw⟩
  | cons i rest ih =>
    intro cache h
    unfold gatherComponents
    split
    · rename_i e cache1 hs
      have hpre := getScalarEvolution_preserves db sg
        (name ++ "_" ++ (if i = 0 then "x" else if i = 1 then "y" else "z"))
        name cache h
      rw [hs] at hpre
      exact hpre
    · rename_i comp cache1 hs
      have hpre := getScalarEvolution_preserves db sg
        (name ++ "_" ++ (if i = 0 then "x" else if i = 1 then "y" else "z"))
        name cache h
      rw [hs] at hpre
      obtain ⟨w, hw⟩ := hpre
      split
      · rename_i hnone
        rw [hw] at hnone
        exact Option.noConfusion hnone
      · rename_i stored hstored
        split
        · exact ⟨stored, hstored⟩
        · rename_i updated hupd
          exact ih (cacheInsert name updated cache1)
            ⟨updated, lookup_cacheInsert_self name updated cache1⟩

/-- C10: for the reserved vector names, `get_property_evolution` stores the
zeroed `(N,3)` array in the cache *before* gathering the three component
columns, so when the first call fails while gathering a component, the
partially written array is left cached, and a subsequent request for the
same name returns it as a normal result without touching the database
again (the call leaves the cache unchanged). -/
theorem vector_property_partial_cache (db : Database) (sg : Subgroup)
    (name : String) (cache : List (String × PropVal)) (e : Err)
    (cache1 : List (String × PropVal))
    (hname : name = "CentreOfPotential" ∨ name = "Velocity")
    (hmiss : cache.lookup name = none)
    (haexp : ∃ a, cache.lookup "aExp" = some a)
    (herr : getPropertyEvolution db sg name cache = (.error e, cache1)) :
    ∃ w, cache1.lookup name = some w ∧
      getPropertyEvolution db sg name cache1 = (.ok w, cache1) := by
  unfold getPropertyEvolution at herr
  split at herr
  · rename_i v hv
    rw [hmiss] at hv
    exact Option.noConfusion hv
  · rw [if_pos hname] at herr
    split at herr
    · rename_i hnone
      obtain ⟨a, ha⟩ := haexp
      rw [ha] at hnone
      exact Option.noConfusion hnone
    · rename_i aExpEntry haE
      have hpre := gatherComponents_preserves db sg name [0, 1, 2]
        (cacheInsert name
          (PropVal.v3 (List.replicate aExpEntry.pyLen 0)
            (List.replicate aExpEntry.pyLen 0)
            (List.replicate aExpEntry.pyLen 0)) cache)
        ⟨_, lookup_cacheInsert_self name _ cache⟩
      rw [herr] at hpre
      obtain ⟨w, hw⟩ := hpre
      refine ⟨w, hw, ?_⟩
      unfold getPropertyEvolution
      rw [hw]

/-- Witness for C10: `exB` has a `Velocity_x` column but no `Velocity_y`,
so the first request fails with `KeyError` yet leaves the partially
written `(2,3)` array cached, and the second request returns it. -/
theorem vector_property_partial_cache_witness :
    ((("Velocity" : String) = "CentreOfPotential" ∨
        ("Velocity" : String) = "Velocity") ∧
      (getOk (mkSubgroup exB 0 2)).evolution.lookup "Velocity" = none ∧
      (∃ a, (getOk (mkSubgroup exB 0 2)).evolution.lookup "aExp" = some a) ∧
      getPropertyEvolution exB (getOk (mkSubgroup exB 0 2)) "Velocity"
          (getOk (mkSubgroup exB 0 2)).evolution
        = (.error .keyError,
            (getPropertyEvolution exB (getOk (mkSubgroup exB 0 2)) "Velocity"
              (getOk (mkSubgroup exB 0 2)).evolution).2)) ∧
    ∃ w, (getPropertyEvolution exB (getOk (mkSubgroup exB 0 2)) "Velocity"
            (getOk (mkSubgroup exB 0 2)).evolution).2.lookup "Velocity"
          = some w ∧
      getPropertyEvolution exB (getOk (mkSubgroup exB 0 2)) "Velocity"
          (getPropertyEvolution exB (getOk (mkSubgroup exB 0 2)) "Velocity"
            (getOk (mkSubgroup exB 0 2)).evolution).2
        = (.ok w,
            (getPropertyEvolution exB (getOk (mkSubgroup exB 0 2)) "Velocity"
              (getOk (mkSubgroup exB 0 2)).evolution).2) :=
  ⟨⟨Or.inr rfl, by decide, ⟨PropVal.s [13, 12], by decide⟩, by decide⟩,
    vector_property_partial_cache exB (getOk (mkSubgroup exB 0 2)) "Velocity"
      (getOk (mkSubgroup exB 0 2)).evolution Err.keyError
      (getPropertyEvolution exB (getOk (mkSubgroup exB 0 2)) "Velocity"
        (getOk (mkSubgroup exB 0 2)).evolution).2
      (Or.inr rfl) (by decide) ⟨PropVal.s [13, 12], by decide⟩ (by decide)⟩

/-- One step of the descendant iteration as a function on optional states:
`none` (a crashed lookup) is absorbing, the sentinel `-1` is absorbing, any
other identifier is advanced by `get_next_descendant`. -/
def seqStep (db : Database) : Option Int → Option Int
  | none => none
  | some x => if x = -1 then some (-1) else getNextDescendant db x

/-- The state of the descendant walk after `n` lookups, starting at `g`. -/
def seqDesc (db : Database) (g : Int) : Nat → Option Int
  | 0 => some g
  | n + 1 => seqStep db (seqDesc db g n)

/-- C5 counterexample: on the two-row catalogue `exC`, whose descendant
links form the cycle `1 -> 2 -> 1`, the walk started at GalaxyID 1 does not
finish within the total snapshot count (2): the unbounded source loop spins
forever, revisiting both identifiers without any data-integrity fault. -/
theorem descendant_walk_cycle_counterexample :
    walkDescendants exC exC.number_snapshots 1 = .fuelOut ∧
    exC.number_snapshots = 2 ∧
    getNextDescendant exC 1 = some 2 ∧
    getNextDescendant exC 2 = some 1 := by
  decide

theorem seqDesc_none_absorbing (db : Database) (g : Int) (i : Nat)
    (h : seqDesc db g i = none) : ∀ j, i ≤ j → seqDesc db g j = none := by
  intro j hij
  obtain ⟨t, rfl⟩ := Nat.exists_eq_add_of_le hij
  induction t with
  | zero => simpa using h
  | succ t ih =>
    have : i + (t + 1) = (i + t) + 1 := by omega
    rw [this]
    show seqStep db (seqDesc db g (i + t)) = none
    rw [ih (by omega)]
    rfl

theorem seqDesc_translate (db : Database) (g : Int) (i j : Nat)
    (h : seqDesc db g i = seqDesc db g j) :
    ∀ t, seqDesc db g (i + t) = seqDesc db g (j + t) := by
  intro t
  induction t with
  | zero => simpa using h
  | succ t ih =>
    have hi : i + (t + 1) = (i + t) + 1 := by omega
    have hj : j + (t + 1) = (j + t) + 1 := by omega
    rw [hi, hj]
    show seqStep db (seqDesc db g (i + t)) = seqStep db (seqDesc db g (j + t))
    rw [ih]

/-- A successful `get_next_descendant` lookup certifies that the queried
identifier occurs in the GalaxyID column. -/
theorem getNextDescendant_some_mem (db : Database) (x d : Int)
    (h : getNextDescendant db x = some d) : x ∈ db.galaxyID := by
  unfold getNextDescendant at h
  cases hq : quick_search db.galaxyID [x] (some db.galaxyID_sorter) with
  | none =>
    rw [hq] at h
    exact Option.noConfusion h
  | some ps =>
    obtain ⟨v, hv, hview⟩ := quick_search_some_mem _ _ _ ps hq
    have hvx : v = x := by simpa using hv
    subst hvx
    refine mem_of_mem_searchView db.galaxyID (some db.galaxyID_sorter) ?_ v hview
    intro i hi
    exact argsortInt_mem db.galaxyID i (by simpa using hi)

/-- A duplicate-free list of members of another list is no longer than it. -/
theorem nodup_subset_length (l l2 : List Int) (hnd : l.Nodup)
    (hsub : ∀ v ∈ l, v ∈ l2) : l.length ≤ l2.length := by
  have h1 : l.toFinset.card = l.length := List.toFinset_card_of_nodup hnd
  have h2 : l.toFinset ⊆ l2.toFinset := by
    intro x hx
    rw [List.mem_toFinset] at hx ⊢
    exact hsub x hx
  have h3 := Finset.card_le_card h2
  have h4 := List.toFinset_card_le l2
  omega

/-- The values the walk visits from step `base` on: `chainVals db g base r`
lists the walk states at steps `base, base+1, ..., base+r-1`. -/
def chainVals (db : Database) (g : Int) : Nat → Nat → List Int
  | _, 0 => []
  | base, r + 1 => (seqDesc db g base).getD 0 :: chainVals db g (base + 1) r

theorem chainVals_eq_map (db : Database) (g : Int) :
    ∀ (r base : Nat), chainVals db g base r
      = (List.range r).map (fun t => (seqDesc db g (base + t)).getD 0) := by
  intro r
  induction r with
  | zero => intro base; rfl
  | succ r ih =>
    intro base
    show (seqDesc db g base).getD 0 :: chainVals db g (base + 1) r = _
    rw [ih (base + 1)]
    rw [List.range_succ_eq_map, List.map_cons, List.map_map]
    congr 1
    refine List.map_congr_left ?_
    intro t ht
    show (seqDesc db g (base + 1 + t)).getD 0
        = (seqDesc db g (base + Nat.succ t)).getD 0
    have harith : base + 1 + t = base + Nat.succ t := by omega
    rw [harith]

/-- C5 amended: the `while` loop of `get_descendants` has no defensive
bound and no revisit detection (see the cycle counterexample), but on data
whose descendant chain from the starting identifier does reach the sentinel
`-1` — the cycle-free situation of a well-formed tree — the walk terminates
within the number of catalogue rows, visits each GalaxyID at most once,
and already finishes with fuel equal to the length of the collected
chain. -/
theorem descendant_walk_acyclic_terminates (db : Database) (g : Int) (k : Nat)
    (hg : g ≠ -1) (hk : seqDesc db g k = some (-1)) :
    ∃ ids, walkDescendants db db.galaxyID.length g = .ok ids ∧
      walkDescendants db ids.length g = .ok ids ∧
      (g :: ids).Nodup ∧ ids.length < db.galaxyID.length := by
  have hex : ∃ n, seqDesc db g n = some (-1) := ⟨k, hk⟩
  set m := Nat.find hex with hmdef
  have hm : seqDesc db g m = some (-1) := Nat.find_spec hex
  have hmin : ∀ j, j < m → ¬ seqDesc db g j = some (-1) :=
    fun j hj => Nat.find_min hex hj
  have hm1 : 1 ≤ m := by
    rcases Nat.eq_zero_or_pos m with h0 | h1
    · rw [h0] at hm
      exact absurd (Option.some.inj hm) hg
    · exact h1
  have hsome : ∀ i, i < m → ∃ x, seqDesc db g i = some x ∧ x ≠ -1 := by
    intro i hi
    cases hsi : seqDesc db g i with
    | none =>
      have habs := seqDesc_none_absorbing db g i hsi m (by omega)
      rw [habs] at hm
      exact Option.noConfusion hm
    | some x =>
      by_cases hx : x = -1
      · rw [hx] at hsi
        exact absurd hsi (hmin i hi)
      · exact ⟨x, rfl, hx⟩
  have hstep : ∀ i x, seqDesc db g i = some x → x ≠ -1 →
      seqDesc db g (i + 1) = getNextDescendant db x := by
    intro i x hsi hx
    show seqStep db (seqDesc db g i) = _
    rw [hsi]
    simp [seqStep, hx]
  have hinj : ∀ i j, i < j → j < m → seqDesc db g i ≠ seqDesc db g j := by
    intro i j hij hjm heq
    have htr := seqDesc_translate db g i j heq (m - j)
    have hjm2 : j + (m - j) = m := by omega
    rw [hjm2, hm] at htr
    exact hmin (i + (m - j)) (by omega) htr
  have hwalk : ∀ r, ∀ i x acc fuel, i + 1 + r = m → seqDesc db g i = some x →
      x ≠ -1 → r ≤ fuel →
      walkAux db fuel x acc
        = .ok (acc.reverse ++ chainVals db g (i + 1) r) := by
    intro r
    induction r with
    | zero =>
      intro i x acc fuel hr hsi hx hf
      have hnext : getNextDescendant db x = some (-1) := by
        rw [← hstep i x hsi hx]
        rw [show i + 1 = m by omega]
        exact hm
      unfold walkAux
      rw [hnext]
      simp [chainVals]
    | succ r ih =>
      intro i x acc fuel hr hsi hx hf
      obtain ⟨d, hd, hdne⟩ := hsome (i + 1) (by omega)
      have hnext : getNextDescendant db x = some d := by
        rw [← hstep i x hsi hx]
        exact hd
      cases fuel with
      | zero => omega
      | succ fuel =>
        unfold walkAux
        rw [hnext]
        simp only [if_neg hdne]
        have hrec := ih (i + 1) d (d :: acc) fuel (by omega) hd hdne (by omega)
        rw [hrec]
        have hcv : chainVals db g (i + 1) (r + 1)
            = (seqDesc db g (i + 1)).getD 0 :: chainVals db g (i + 1 + 1) r := rfl
        rw [hcv, hd, List.reverse_cons, List.append_assoc]
        rfl
  set ids := chainVals db g 1 (m - 1) with hidsdef
  have hids_map : ids = (List.range (m - 1)).map
      (fun t => (seqDesc db g (1 + t)).getD 0) := by
    rw [hidsdef, chainVals_eq_map]
  have hlen_ids : ids.length = m - 1 := by
    rw [hids_map, List.length_map, List.length_range]
  have hmemcol : ∀ t, t < m → (seqDesc db g t).getD 0 ∈ db.galaxyID := by
    intro t ht
    obtain ⟨x, hx, hxne⟩ := hsome t ht
    have hnd : ∃ d, getNextDescendant db x = some d := by
      rcases Nat.lt_or_ge (t + 1) m with h1 | h1
      · obtain ⟨d, hdeq, _⟩ := hsome (t + 1) h1
        exact ⟨d, by rw [← hstep t x hx hxne]; exact hdeq⟩
      · have ht1 : t + 1 = m := by omega
        exact ⟨-1, by rw [← hstep t x hx hxne, ht1]; exact hm⟩
    obtain ⟨d, hd⟩ := hnd
    have hmemx := getNextDescendant_some_mem db x d hd
    rw [hx]
    simpa using hmemx
  have hcons : g :: ids = (List.range m).map
      (fun t => (seqDesc db g t).getD 0) := by
    have hm2 : m = (m - 1) + 1 := by omega
    rw [hm2, List.range_succ_eq_map, List.map_cons, List.map_map]
    congr 1
    rw [hids_map]
    refine List.map_congr_left ?_
    intro t ht
    show (seqDesc db g (1 + t)).getD 0 = (seqDesc db g (Nat.succ t)).getD 0
    have harith : 1 + t = Nat.succ t := by omega
    rw [harith]
  have hnd : (g :: ids).Nodup := by
    rw [hcons]
    refine List.Nodup.map_on ?_ (List.nodup_range m)
    intro a ha b hb hfab
    rw [List.mem_range] at ha hb
    by_contra hne
    obtain ⟨xa, hxa, _⟩ := hsome a ha
    obtain ⟨xb, hxb, _⟩ := hsome b hb
    rw [hxa, hxb] at hfab
    simp at hfab
    rcases Nat.lt_or_ge a b with h1 | h1
    · refine hinj a b h1 hb ?_
      rw [hxa, hxb, hfab]
    · have h2 : b < a := by omega
      refine hinj b a h2 ha ?_
      rw [hxa, hxb, hfab]
  have hmem2 : ∀ v ∈ g :: ids, v ∈ db.galaxyID := by
    intro v hv
    rw [hcons] at hv
    obtain ⟨t, ht, rfl⟩ := List.mem_map.mp hv
    exact hmemcol t (by simpa using ht)
  have hbound : m ≤ db.galaxyID.length := by
    have hle := nodup_subset_length (g :: ids) db.galaxyID hnd hmem2
    rw [List.length_cons, hlen_ids] at hle
    omega
  have happ : ∀ fuel, m - 1 ≤ fuel → walkDescendants db fuel g = .ok ids := by
    intro fuel hf
    unfold walkDescendants
    have hw := hwalk (m - 1) 0 g [] fuel (by omega) rfl hg hf
    rw [hw]
    rw [hidsdef]
    rfl
  refine ⟨ids, happ db.galaxyID.length (by omega), ?_, hnd, ?_⟩
  · rw [hlen_ids]
    exact happ (m - 1) (by omega)
  · rw [hlen_ids]
    omega

/-- Witness for C5 (amended) at `exB`: the chain from GalaxyID 200 reaches
`-1` after two steps, so the walk terminates, duplicate-free, within the
two catalogue rows. -/
theorem descendant_walk_acyclic_terminates_witness :
    ((200 : Int) ≠ -1 ∧ seqDesc exB 200 2 = some (-1)) ∧
    (∃ ids, walkDescendants exB exB.galaxyID.length 200 = .ok ids ∧
      walkDescendants exB ids.length 200 = .ok ids ∧
      ((200 : Int) :: ids).Nodup ∧ ids.length < exB.galaxyID.length) :=
  ⟨⟨by decide, by decide⟩,
    descendant_walk_acyclic_terminates exB 200 2 (by decide) (by decide)⟩
